import Mathlib

/-!
# Verification of the Kimera-VIO `OpenCvVisualizer3D` scene-maintenance core

Shallow embedding of the incremental scene-graph maintenance and
mesh-colorization engine declared in
`src/include/kimera-vio/visualizer/OpenCvVisualizer3D.h`.

The repository snapshot ships only the header: every member function of
`OpenCvVisualizer3D` is declared there (with its documentation) but its body
lives in a `.cpp` file that is not part of `src/`.  Consequently the
operational definitions below are modelled from the specification
(`spec.md`), faithful to its words, and each such definition carries a doc
comment starting with `Modelled from the spec:` naming the missing code.
Types, signatures, default arguments (e.g. the frustum window default
`n_last_frustums = 10`) and the member-field layout (`trajectory_poses_3d_`,
`plane_id_map_`, `plane_to_line_nr_map_`, `is_plane_id_in_window_`) are taken
from the header itself.
-/

namespace VIO

/-- Integer identifier of a detected planar landmark
(`typedef std::uint64_t PlaneId` in the header).  Ids are small and never
overflow in practice, so they are embedded as `Nat`. -/
abbrev PlaneId := Nat

/-- Integer identifier of a 3D point landmark (`LandmarkId` from
`VioBackEnd-definitions.h`, not under `src/`; the spec describes it as an
integer identifier, globally unique per physical feature). -/
abbrev LandmarkId := Nat

/-- RGB colour triple, the observable content of a `cv::viz::Color`
(each channel a byte). -/
structure Color where
  r : Nat
  g : Nat
  b : Nat
deriving DecidableEq, Repr

/-! ## Scene Registry (widgets map)

The header's `WidgetsMap` (from `Visualizer3D-definitions.h`, not under
`src/`) maps a stable string identity to a widget.  The spec (section 4.1)
gives the contract: `upsert` creates on a fresh identity and mutates in
place on a known one, `remove` deletes the entry if present and reports
whether it did, `contains` queries membership.  The registry is embedded as
an association list over an arbitrary decidable key type `K` (the concrete
instantiations use strings or structured widget identities) with an
arbitrary widget payload type `W`. -/

/-- Association-list model of a widgets map keyed by `K`. -/
abbrev WMap (K W : Type) := List (K × W)

/-- Modelled from the spec: membership query `contains(identity)` of the
Scene Registry (section 4.1); the body of the underlying `std::map` lookup
is not in `src/`. -/
def wContains {K W : Type} [DecidableEq K] (m : WMap K W) (k : K) : Bool :=
  m.any (fun p => decide (p.1 = k))

/-- Modelled from the spec: `upsert(identity, ...)` of the Scene Registry
(section 4.1): if the identity is new, create the entry; if present, mutate
it in place — never a remove-plus-add.  The body of the `std::map` insert
or assignment is not in `src/`. -/
def wUpsert {K W : Type} [DecidableEq K] (m : WMap K W) (k : K) (w : W) :
    WMap K W :=
  if wContains m k then
    m.map (fun p => if p.1 = k then (k, w) else p)
  else
    m ++ [(k, w)]

/-- Modelled from the spec: the deletion part of `remove(identity)` of the
Scene Registry (section 4.1); the body of `OpenCvVisualizer3D::removeWidget`
is not in `src/`.  Deletes every entry stored under the identity (a map
holds at most one). -/
def wErase {K W : Type} [DecidableEq K] (m : WMap K W) (k : K) : WMap K W :=
  m.filter (fun p => decide (p.1 ≠ k))

/-- Modelled from the spec: `removeWidget(widget_id)` declared at line 304 of
the header ("Remove widget. True if successful, false if not."); its body is
not in `src/`.  Returns whether an entry with the identity was present and
the registry with that entry removed; removing a missing identity is a no-op
returning `false`. -/
def removeWidget {K W : Type} [DecidableEq K] (m : WMap K W) (k : K) :
    Bool × WMap K W :=
  (wContains m k, wErase m k)

/-- Number of live entries stored under identity `k`. -/
def wCountKey {K W : Type} [DecidableEq K] (m : WMap K W) (k : K) : Nat :=
  (m.filter (fun p => decide (p.1 = k))).length

/-- First payload stored under identity `k`, if any. -/
def wFind {K W : Type} [DecidableEq K] (m : WMap K W) (k : K) : Option W :=
  (m.find? (fun p => decide (p.1 = k))).map Prod.snd

/-! ## Mesh Colorizer -/

/-- Modelled from the spec: the fixed colour palette used by
`getColorById` (header line 377: "Decide color of the cluster depending on
its id."); the body is not in `src/`.  The spec (section 4.3, step 3) only
requires a fixed palette indexed by `label mod paletteSize`; the palette
entries are fixed saturated primaries. -/
def palette : List Color :=
  [⟨255, 0, 0⟩, ⟨0, 255, 0⟩, ⟨0, 0, 255⟩,
   ⟨255, 255, 0⟩, ⟨0, 255, 255⟩, ⟨255, 0, 255⟩]

/-- Size of the fixed palette. -/
def paletteSize : Nat := palette.length

/-- Modelled from the spec: the default "unclustered" colour, "a fixed
neutral color" (section 4.3, step 1); the concrete constant honoured by the
missing `.cpp` body is not in `src/`.  A neutral grey. -/
def defaultMeshColor : Color := ⟨220, 220, 220⟩

/-- Modelled from the spec: `getColorById` (header line 377); its body is
not in `src/`.  Section 4.3 step 3: map each cluster label deterministically
to a colour via the fixed palette indexed by `label mod paletteSize`. -/
def getColorById (id : Nat) : Color :=
  palette.getD (id % paletteSize) defaultMeshColor

/-- A labeled cluster: "an ordered sequence of point indices that
participate in one labeled surface patch" carrying a cluster label
(spec section 3, `TriangleCluster`; the C++ type lives in
`Mesher-definitions.h`, not under `src/`). -/
structure TriangleCluster where
  cluster_id : Nat
  point_ids : List Nat
deriving DecidableEq, Repr

/-- Visualization error taxonomy relevant to the core (spec section 7):
malformed input, e.g. a cluster referencing an out-of-range vertex index. -/
inductive VizError where
  | malformedInput (clusterLabel : Nat) (badIndex : Nat) : VizError
deriving DecidableEq, Repr

/-- Modelled from the spec: the inner loop of `colorMeshByClusters` (header
lines 368-374); its body is not in `src/`.  Walks one cluster's point
indices in order, overwriting each claimed vertex with the cluster's palette
colour; an out-of-range index is a reported malformed-input error, not a
silent skip (spec sections 4.3 and 7). -/
def setClusterColor (numPoints : Nat) (label : Nat) :
    List Nat → List Color → Except VizError (List Color)
  | [], colors => .ok colors
  | idx :: rest, colors =>
    if idx < numPoints then
      setClusterColor numPoints label rest (colors.set idx (getColorById label))
    else
      .error (.malformedInput label idx)

/-- Colour all vertices claimed by one cluster. -/
def applyCluster (numPoints : Nat) (colors : List Color)
    (c : TriangleCluster) : Except VizError (List Color) :=
  setClusterColor numPoints c.cluster_id c.point_ids colors

/-- Iterate the clusters in the order received, later clusters overriding
earlier ones for shared vertices (spec section 4.3, step 2). -/
def colorClusters (numPoints : Nat) :
    List TriangleCluster → List Color → Except VizError (List Color)
  | [], colors => .ok colors
  | c :: rest, colors =>
    match applyCluster numPoints colors c with
    | .ok colors1 => colorClusters numPoints rest colors1
    | .error e => .error e

/-- Modelled from the spec: `colorMeshByClusters` (header lines 368-374,
"output colors matrix for mesh visualizer. This will color the point with
the color of the last plane having it."); its body is not in `src/`.
Section 4.3: initialise every vertex to the default colour, then apply the
clusters in order. -/
def colorMeshByClusters (numPoints : Nat)
    (clusters : List TriangleCluster) : Except VizError (List Color) :=
  colorClusters numPoints clusters (List.replicate numPoints defaultMeshColor)

/-- The last cluster in processing order that claims vertex `v`, if any. -/
def lastClaiming (clusters : List TriangleCluster) (v : Nat) :
    Option TriangleCluster :=
  (clusters.filter (fun c => decide (v ∈ c.point_ids))).getLast?

/-! ## Plane/Landmark Line Tracker

The header stores `plane_id_map_ : PlaneId -> (LandmarkId -> LineNr)` (line
352), `plane_to_line_nr_map_` (line 351) and `is_plane_id_in_window_`
(line 353).  Spec section 4.2 describes the behaviour of
`visualizePlaneConstraints` / `removeOldLines` (reconcile) and
`removePlaneConstraintsViz` / `removePlane` (retire), whose bodies are not
in `src/`. -/

/-- Structured widget identity: constraint-line widgets are identified by
their `(PlaneId, LandmarkId)` pair (header line 307: "Point key is required
to avoid duplicated lines!"); planes own a geometry widget and a label
widget; everything else keeps its string identity. -/
inductive WidgetId where
  | line (pid : PlaneId) (lmk : LandmarkId)
  | planeGeom (pid : PlaneId)
  | planeLabel (pid : PlaneId)
  | named (s : String)
deriving DecidableEq, Repr

/-- The plane id owning a widget identity, if any. -/
def ownerOf : WidgetId → Option PlaneId
  | .line pid _ => some pid
  | .planeGeom pid => some pid
  | .planeLabel pid => some pid
  | .named _ => none

/-- A render-backend instruction recorded by a mutating registry call
(spec section 4.1: every mutating call enqueues exactly one
render-backend instruction). -/
inductive RegMutation (W : Type) where
  | add (wid : WidgetId) (w : W)
  | update (wid : WidgetId) (w : W)
  | remove (wid : WidgetId)

/-- State of the visualizer relevant to plane-constraint tracking: the
widget registry together with the header's member maps `plane_id_map_` and
`is_plane_id_in_window_` (header lines 351-353), the latter two embedded as
functions from plane ids. -/
structure TrackerState (W : Type) where
  widgets : WMap WidgetId W
  planeIdMap : PlaneId → List LandmarkId
  isPlaneInWindow : PlaneId → Bool

/-- Modelled from the spec: `reconcile(planeId, normal, distance, inliers)`
(spec section 4.2), the behaviour of `visualizePlaneConstraints` plus
`removeOldLines` (header lines 306-317) whose bodies are not in `src/`.
Set-difference reconciliation: every owned line whose landmark is not an
inlier is removed, every inlier without a line gets one, lines present in
both are left untouched.  `mkLine` builds the line widget payload for a
landmark (geometry is out of scope).  Returns the new state and the list of
registry mutations performed. -/
def reconcile {W : Type} (st : TrackerState W) (pid : PlaneId)
    (inliers : List LandmarkId) (mkLine : LandmarkId → W) :
    TrackerState W × List (RegMutation W) :=
  let owned := st.planeIdMap pid
  let removals := owned.filter (fun l => decide (l ∉ inliers))
  let additions := inliers.filter (fun l => decide (l ∉ owned))
  let widgets1 := removals.foldl (fun m l => wErase m (.line pid l)) st.widgets
  let widgets2 :=
    additions.foldl (fun m l => wUpsert m (.line pid l) (mkLine l)) widgets1
  ({ widgets := widgets2,
     planeIdMap := fun q => if q = pid then inliers else st.planeIdMap q,
     isPlaneInWindow := fun q => if q = pid then true else st.isPlaneInWindow q },
   removals.map (fun l => .remove (.line pid l)) ++
     additions.map (fun l => .add (.line pid l) (mkLine l)))

/-- Modelled from the spec: `retire(planeId)` (spec section 4.2), the
behaviour of `removePlaneConstraintsViz` plus `removePlane` (header lines
319-324) whose bodies are not in `src/`.  Removes every constraint line
recorded for the plane in `plane_id_map_`, then the plane's geometry and
label widgets, and clears the plane's bookkeeping entries. -/
def retire {W : Type} (st : TrackerState W) (pid : PlaneId) :
    TrackerState W × List (RegMutation W) :=
  let lines := st.planeIdMap pid
  let widgets1 := lines.foldl (fun m l => wErase m (.line pid l)) st.widgets
  let widgets2 := wErase (wErase widgets1 (.planeGeom pid)) (.planeLabel pid)
  ({ widgets := widgets2,
     planeIdMap := fun q => if q = pid then [] else st.planeIdMap q,
     isPlaneInWindow := fun q => if q = pid then false else st.isPlaneInWindow q },
   lines.map (fun l => RegMutation.remove (.line pid l)) ++
     [.remove (.planeGeom pid), .remove (.planeLabel pid)])

/-- Well-formedness tying the registry to `plane_id_map_`: a constraint-line
widget `(pid, l)` is live exactly when `plane_id_map_` records `l` for
`pid` (the "at most one line widget per pair" invariant of spec
section 3). -/
def WFPlaneLines {W : Type} (st : TrackerState W) : Prop :=
  ∀ (pid : PlaneId) (l : LandmarkId),
    wContains st.widgets (.line pid l) = true ↔ l ∈ st.planeIdMap pid

/-! ## Trajectory Accumulator

`trajectory_poses_3d_ : std::deque<cv::Affine3d>` (header line 349).  Poses
are `cv::Affine3d` values whose numeric content the bookkeeping never
inspects, so the embedding is parametric in the pose type. -/

/-- Widget identity used when rendering a trajectory: the single polyline
widget, or a frustum keyed by its position in the sliding window. -/
inductive TrajKey where
  | trajectory
  | frustum (i : Nat)
deriving DecidableEq, Repr

/-- Payload of a trajectory-rendering widget. -/
inductive TrajWidget (Pose : Type) where
  | polyline (poses : List Pose)
  | frustum (pose : Pose)

/-- `addPoseToTrajectory` (header line 94): append the pose (copied) to the
stored trajectory. -/
def addPoseToTrajectory {Pose : Type} (traj : List Pose) (p : Pose) :
    List Pose :=
  traj ++ [p]

/-- `lastN(n)` of spec section 4.4: the most recent `n` poses in
chronological order, or all poses when fewer exist. -/
def lastN {α : Type} (l : List α) (n : Nat) : List α :=
  l.drop (l.length - n)

/-- Modelled from the spec: `visualizeTrajectory3D` (header line 103) whose
body is not in `src/`.  Upserts the single trajectory polyline widget
spanning the entire stored history (spec section 4.4). -/
def visualizeTrajectory3D {Pose : Type} (traj : List Pose)
    (widgets : WMap TrajKey (TrajWidget Pose)) :
    WMap TrajKey (TrajWidget Pose) :=
  wUpsert widgets .trajectory (.polyline traj)

/-- Modelled from the spec: `visualizeTrajectoryWithFrustums` (header lines
112-113, default `n_last_frustums = 10`) whose body is not in `src/`.
Upserts one frustum widget per pose in the sliding window of the last
`n` poses, each keyed by its position in the window so identity reuse
overwrites old frustums (spec section 4.4). -/
def visualizeTrajectoryWithFrustums {Pose : Type} (traj : List Pose)
    (widgets : WMap TrajKey (TrajWidget Pose)) (n : Nat := 10) :
    WMap TrajKey (TrajWidget Pose) :=
  let window := lastN traj n
  window.enum.foldl
    (fun m ip => wUpsert m (.frustum ip.1) (.frustum ip.2)) widgets

/-- Render the trajectory into a fresh per-frame widgets map: the polyline
over the whole history plus the frustum window. -/
def renderTrajectory {Pose : Type} (traj : List Pose) (n : Nat := 10) :
    WMap TrajKey (TrajWidget Pose) :=
  visualizeTrajectoryWithFrustums traj (visualizeTrajectory3D traj []) n

/-- Whether a trajectory widget key is a frustum key. -/
def isFrustumKey : TrajKey → Bool
  | .frustum _ => true
  | .trajectory => false

/-! ## `visualizeMesh3D` -/

/-- Payload of the mesh widget produced by `visualizeMesh3D`, parametric in
the 3D point representation (a `cv::Mat` row). -/
inductive MeshWidget (P : Type) where
  | mesh (points : List P) (colors : List Color) (polygons : List (List Nat))

/-- Modelled from the spec: `visualizeMesh3D` (header lines 186-192,
"@return false if nothing to draw") whose body is not in `src/`.  Returns
`false` — adding nothing — when there is nothing to draw (empty points or
polygons) or when a non-empty colour or texture-coordinate array disagrees
with the mesh point count (MalformedInput, spec section 7); otherwise
upserts the mesh widget under identity `"Mesh" ++ id` and returns `true`. -/
def visualizeMesh3D {P : Type} (map_points_3d : List P) (colors : List Color)
    (polygons : List (List Nat)) (widgets : WMap String (MeshWidget P))
    (tcoords : List (Nat × Nat) := []) (id : String := "") :
    Bool × WMap String (MeshWidget P) :=
  if map_points_3d.isEmpty || polygons.isEmpty then
    (false, widgets)
  else if !colors.isEmpty && decide (colors.length ≠ map_points_3d.length) then
    (false, widgets)
  else if !tcoords.isEmpty && decide (tcoords.length ≠ map_points_3d.length) then
    (false, widgets)
  else
    (true,
     wUpsert widgets ("Mesh" ++ id) (.mesh map_points_3d colors polygons))

/-! ## Frame Assembler

Spec section 4.5: pure orchestration over one frame of pipeline output,
producing a `VisualizerOutput`; its C++ counterpart is
`OpenCvVisualizer3D::spinOnce` (header line 75) whose body is not in
`src/`. -/

/-- Widget identity in an assembled frame output. -/
inductive SceneKey where
  | trajectory
  | frustum (i : Nat)
  | mesh
  | pointCloud
deriving DecidableEq, Repr

/-- Widget payload in an assembled frame output. -/
inductive SceneWidget (Pose : Type) where
  | polyline (poses : List Pose)
  | frustum (pose : Pose)
  | coloredMesh (colors : List Color)
  | pointCloud (numPoints : Nat)

/-- One frame of pipeline output: the current pose, an optional mesh (vertex
count plus that frame's clusters) and an optional point cloud (its size;
geometry is out of scope). -/
structure FrameInput (Pose : Type) where
  pose : Pose
  mesh : Option (Nat × List TriangleCluster)
  pointCloud : Option Nat

/-- The per-frame delta consumed by the render backend: the widgets map
plus the errors reported for skipped steps. -/
structure VisualizerOutput (Pose : Type) where
  widgets : WMap SceneKey (SceneWidget Pose)
  errors : List VizError

/-- Modelled from the spec: the Frame Assembler (spec section 4.5) and the
error-propagation policy of section 7 — the bodies of `spinOnce` and
`visualizeMesh3DWithColoredClusters` are not in `src/`.  Appends the pose,
renders the trajectory polyline and the frustum window, colourises the mesh
when present (on a malformed-input error the mesh step is skipped for this
frame and the error reported), and upserts the point cloud.  Returns the
updated trajectory history and the frame's `VisualizerOutput`. -/
def assembleFrame {Pose : Type} (traj : List Pose) (input : FrameInput Pose)
    (nFrustums : Nat := 10) : List Pose × VisualizerOutput Pose :=
  let traj1 := addPoseToTrajectory traj input.pose
  let w1 : WMap SceneKey (SceneWidget Pose) :=
    wUpsert [] .trajectory (.polyline traj1)
  let w2 := (lastN traj1 nFrustums).enum.foldl
    (fun m ip => wUpsert m (.frustum ip.1) (.frustum ip.2)) w1
  let meshStep :=
    match input.mesh with
    | none => (w2, ([] : List VizError))
    | some (numPoints, clusters) =>
      match colorMeshByClusters numPoints clusters with
      | .ok colors => (wUpsert w2 .mesh (.coloredMesh colors), [])
      | .error e => (w2, [e])
  let w4 :=
    match input.pointCloud with
    | none => meshStep.1
    | some numPoints => wUpsert meshStep.1 .pointCloud (.pointCloud numPoints)
  (traj1, ⟨w4, meshStep.2⟩)

/-! ## Registry lemmas -/

section RegistryLemmas

variable {K W : Type} [DecidableEq K]

theorem wContains_iff_exists (m : WMap K W) (k : K) :
    wContains m k = true ↔ ∃ w, (k, w) ∈ m := by
  simp only [wContains, List.any_eq_true, decide_eq_true_eq]
  constructor
  · rintro ⟨⟨a, w⟩, hm, rfl⟩
    exact ⟨w, hm⟩
  · rintro ⟨w, hm⟩
    exact ⟨(k, w), hm, rfl⟩

theorem wContains_wUpsert_iff (m : WMap K W) (k k' : K) (w : W) :
    wContains (wUpsert m k w) k' = true ↔
      (wContains m k' = true ∨ k' = k) := by
  unfold wUpsert
  by_cases h : wContains m k = true
  · rw [if_pos h]
    simp only [wContains, List.any_map, List.any_eq_true, Function.comp,
      decide_eq_true_eq] at *
    constructor
    · rintro ⟨p, hp, hpe⟩
      by_cases hk : p.1 = k
      · rw [if_pos hk] at hpe
        exact Or.inr hpe.symm
      · rw [if_neg hk] at hpe
        exact Or.inl ⟨p, hp, hpe⟩
    · rintro (⟨p, hp, hpe⟩ | rfl)
      · refine ⟨p, hp, ?_⟩
        by_cases hk : p.1 = k
        · rw [if_pos hk]
          rw [← hpe, hk]
        · rw [if_neg hk]
          exact hpe
      · obtain ⟨p, hp, hpe⟩ := h
        refine ⟨p, hp, ?_⟩
        rw [if_pos hpe]
  · rw [if_neg h]
    simp only [wContains, List.any_append, List.any_cons, List.any_nil,
      Bool.or_eq_true, decide_eq_true_eq, Bool.or_false]
    constructor
    · rintro (hm | hk)
      · exact Or.inl hm
      · exact Or.inr hk.symm
    · rintro (hm | rfl)
      · exact Or.inl hm
      · exact Or.inr rfl

theorem wContains_wErase_iff (m : WMap K W) (k k' : K) :
    wContains (wErase m k) k' = true ↔
      (wContains m k' = true ∧ k' ≠ k) := by
  unfold wErase
  simp only [wContains, List.any_eq_true, List.mem_filter, decide_eq_true_eq,
    ne_eq]
  constructor
  · rintro ⟨p, ⟨hp, hpk⟩, rfl⟩
    exact ⟨⟨p, hp, rfl⟩, hpk⟩
  · rintro ⟨⟨p, hp, rfl⟩, hk⟩
    exact ⟨p, ⟨hp, hk⟩, rfl⟩

theorem wFind_wUpsert_self (m : WMap K W) (k : K) (w : W) :
    wFind (wUpsert m k w) k = some w := by
  unfold wUpsert
  by_cases h : wContains m k = true
  · rw [if_pos h]
    induction m with
    | nil => simp [wContains] at h
    | cons p rest ih =>
      by_cases hk : p.1 = k
      · simp [wFind, List.find?, hk]
      · have h' : wContains rest k = true := by
          simpa [wContains, List.any_cons, hk] using h
        simpa [wFind, List.find?, hk] using ih h'
  · rw [if_neg h]
    have hnone : (m.find? (fun p => decide (p.1 = k))) = none := by
      rw [List.find?_eq_none]
      intro p hp hpk
      simp only [decide_eq_true_eq] at hpk
      exact h ((wContains_iff_exists m k).2 ⟨p.2, by rw [← hpk]; exact hp⟩)
    simp [wFind, hnone]

theorem wFind_wUpsert_ne (m : WMap K W) (k k' : K) (w : W) (h : k' ≠ k) :
    wFind (wUpsert m k w) k' = wFind m k' := by
  unfold wUpsert
  by_cases hc : wContains m k = true
  · rw [if_pos hc]
    clear hc
    induction m with
    | nil => rfl
    | cons p rest ih =>
      rw [List.map_cons]
      by_cases hk : p.1 = k
      · rw [if_pos hk]
        have h2 : (decide (((k, w) : K × W).1 = k')) = false :=
          decide_eq_false (fun he => h he.symm)
        have h3 : (decide (p.1 = k')) = false :=
          decide_eq_false (by rw [hk]; exact fun he => h he.symm)
        unfold wFind
        simp only [List.find?_cons, h2, h3]
        simpa [wFind] using ih
      · rw [if_neg hk]
        by_cases hk' : p.1 = k'
        · have hp : (decide (p.1 = k')) = true := decide_eq_true hk'
          unfold wFind
          simp only [List.find?_cons, hp]
        · have hp : (decide (p.1 = k')) = false := decide_eq_false hk'
          unfold wFind
          simp only [List.find?_cons, hp]
          simpa [wFind] using ih
  · rw [if_neg hc]
    have : (([(k, w)] : WMap K W).find? (fun p => decide (p.1 = k'))) = none := by
      rw [List.find?_eq_none]
      intro p hp
      simp only [List.mem_singleton] at hp
      subst hp
      simp [h.symm]
    simp [wFind, List.find?_append, this]

theorem wCountKey_wUpsert_self (m : WMap K W) (k : K) (w : W) :
    wCountKey (wUpsert m k w) k =
      if wCountKey m k = 0 then 1 else wCountKey m k := by
  unfold wUpsert wCountKey
  have hcw : wContains m k = true ↔
      0 < (m.filter (fun p => decide (p.1 = k))).length := by
    rw [wContains_iff_exists]
    rw [← List.countP_eq_length_filter, List.countP_pos_iff]
    constructor
    · rintro ⟨w', hw⟩
      exact ⟨(k, w'), hw, by simp⟩
    · rintro ⟨p, hp, hpk⟩
      simp only [decide_eq_true_eq] at hpk
      exact ⟨p.2, by rw [← hpk]; exact hp⟩
  by_cases h : wContains m k = true
  · rw [if_pos h]
    have hlen : ((m.map (fun p => if p.1 = k then (k, w) else p)).filter
        (fun p => decide (p.1 = k))).length =
        (m.filter (fun p => decide (p.1 = k))).length := by
      rw [← List.countP_eq_length_filter, ← List.countP_eq_length_filter,
        List.countP_map]
      apply List.countP_congr
      intro p _
      by_cases hk : p.1 = k <;> simp [Function.comp, hk]
    rw [hlen]
    have hpos := hcw.1 h
    have hne : (m.filter (fun p => decide (p.1 = k))).length ≠ 0 := by omega
    rw [if_neg hne]
  · rw [if_neg h]
    have hz : (m.filter (fun p => decide (p.1 = k))).length = 0 := by
      by_contra hnz
      exact h (hcw.2 (Nat.pos_of_ne_zero hnz))
    rw [List.filter_append, List.length_append, hz, if_pos rfl]
    simp [List.filter_cons]

theorem wCountP_wUpsert_le (m : WMap K W) (k : K) (w : W) (pk : K → Bool) :
    (wUpsert m k w).countP (fun p => pk p.1) ≤
      m.countP (fun p => pk p.1) + 1 := by
  unfold wUpsert
  by_cases h : wContains m k = true
  · rw [if_pos h]
    rw [List.countP_map]
    have : m.countP ((fun p => pk p.1) ∘ fun p => if p.1 = k then (k, w) else p)
        = m.countP (fun p => pk p.1) := by
      apply List.countP_congr
      intro p _
      by_cases hk : p.1 = k <;> simp [Function.comp, hk]
    omega
  · rw [if_neg h]
    rw [List.countP_append]
    have h1 : ([(k, w)] : WMap K W).countP (fun p => pk p.1) ≤ 1 := by
      by_cases hpk : pk k <;> simp [List.countP_cons, List.countP_nil, hpk]
    omega

theorem wCountP_wUpsert_of_not (m : WMap K W) (k : K) (w : W) (pk : K → Bool)
    (hk : pk k = false) :
    (wUpsert m k w).countP (fun p => pk p.1) = m.countP (fun p => pk p.1) := by
  unfold wUpsert
  by_cases h : wContains m k = true
  · rw [if_pos h]
    rw [List.countP_map]
    apply List.countP_congr
    intro p _
    by_cases hpk : p.1 = k <;> simp [Function.comp, hpk, hk]
  · rw [if_neg h]
    simp [List.countP_append, List.countP_cons, hk]

theorem wContains_foldl_wErase {K W A : Type} [DecidableEq K] (g : A → K)
    (L : List A) (m : WMap K W) (k : K) :
    wContains (L.foldl (fun acc x => wErase acc (g x)) m) k = true ↔
      (wContains m k = true ∧ ∀ x ∈ L, g x ≠ k) := by
  induction L generalizing m with
  | nil => simp
  | cons a L ih =>
    rw [List.foldl_cons, ih, wContains_wErase_iff]
    constructor
    · rintro ⟨⟨hm, hka⟩, hall⟩
      refine ⟨hm, ?_⟩
      intro x hx
      rcases List.mem_cons.mp hx with rfl | hx
      · exact fun he => hka he.symm
      · exact hall x hx
    · rintro ⟨hm, hall⟩
      refine ⟨⟨hm, fun he => hall a (List.mem_cons_self a L) he.symm⟩, ?_⟩
      intro x hx
      exact hall x (List.mem_cons_of_mem a hx)

theorem wContains_foldl_wUpsert {K W A : Type} [DecidableEq K] (g : A → K)
    (hw : A → W) (L : List A) (m : WMap K W) (k : K) :
    wContains (L.foldl (fun acc x => wUpsert acc (g x) (hw x)) m) k = true ↔
      (wContains m k = true ∨ ∃ x ∈ L, g x = k) := by
  induction L generalizing m with
  | nil => simp
  | cons a L ih =>
    rw [List.foldl_cons, ih, wContains_wUpsert_iff]
    constructor
    · rintro ((hm | hka) | ⟨x, hx, hgx⟩)
      · exact Or.inl hm
      · exact Or.inr ⟨a, List.mem_cons_self a L, hka.symm⟩
      · exact Or.inr ⟨x, List.mem_cons_of_mem a hx, hgx⟩
    · rintro (hm | ⟨x, hx, hgx⟩)
      · exact Or.inl (Or.inl hm)
      · rcases List.mem_cons.mp hx with rfl | hx
        · exact Or.inl (Or.inr hgx.symm)
        · exact Or.inr ⟨x, hx, hgx⟩

theorem wCountP_foldl_wUpsert_le {K W A : Type} [DecidableEq K] (g : A → K)
    (hw : A → W) (pk : K → Bool) (L : List A) (m : WMap K W) :
    (L.foldl (fun acc x => wUpsert acc (g x) (hw x)) m).countP
        (fun p => pk p.1) ≤ m.countP (fun p => pk p.1) + L.length := by
  induction L generalizing m with
  | nil => simp
  | cons a L ih =>
    rw [List.foldl_cons]
    have h1 := wCountP_wUpsert_le m (g a) (hw a) pk
    have h2 := ih (wUpsert m (g a) (hw a))
    simp only [List.length_cons]
    omega

theorem wCountP_foldl_wUpsert_of_not {K W A : Type} [DecidableEq K]
    (g : A → K) (hw : A → W) (pk : K → Bool) (L : List A) (m : WMap K W)
    (hall : ∀ x ∈ L, pk (g x) = false) :
    (L.foldl (fun acc x => wUpsert acc (g x) (hw x)) m).countP
        (fun p => pk p.1) = m.countP (fun p => pk p.1) := by
  induction L generalizing m with
  | nil => simp
  | cons a L ih =>
    rw [List.foldl_cons]
    rw [ih (wUpsert m (g a) (hw a)) (fun x hx => hall x (List.mem_cons_of_mem a hx))]
    exact wCountP_wUpsert_of_not m (g a) (hw a) pk
      (hall a (List.mem_cons_self a L))

theorem wFind_foldl_wUpsert_ne {K W A : Type} [DecidableEq K] (g : A → K)
    (hw : A → W) (L : List A) (m : WMap K W) (k : K)
    (hall : ∀ x ∈ L, g x ≠ k) :
    wFind (L.foldl (fun acc x => wUpsert acc (g x) (hw x)) m) k = wFind m k := by
  induction L generalizing m with
  | nil => rfl
  | cons a L ih =>
    rw [List.foldl_cons]
    rw [ih (wUpsert m (g a) (hw a)) (fun x hx => hall x (List.mem_cons_of_mem a hx))]
    exact wFind_wUpsert_ne m (g a) k (hw a)
      (fun he => hall a (List.mem_cons_self a L) he.symm)

theorem wCountKey_foldl_wUpsert {K W : Type} [DecidableEq K] (m : WMap K W)
    (i : K) (ws : List W) (hne : ws ≠ []) :
    wCountKey (ws.foldl (fun acc w => wUpsert acc i w) m) i =
      if wCountKey m i = 0 then 1 else wCountKey m i := by
  induction ws generalizing m with
  | nil => cases hne rfl
  | cons w ws ih =>
    rw [List.foldl_cons]
    by_cases hws : ws = []
    · subst hws
      rw [List.foldl_nil, wCountKey_wUpsert_self]
    · rw [ih (wUpsert m i w) hws, wCountKey_wUpsert_self]
      by_cases hz : wCountKey m i = 0
      · rw [if_pos hz]
        norm_num
      · rw [if_neg hz, if_neg hz]

end RegistryLemmas

/-! ## Colorizer lemmas -/

theorem setClusterColor_length (numPoints label : Nat) (ids : List Nat) :
    ∀ (cs cs' : List Color),
      setClusterColor numPoints label ids cs = .ok cs' →
      cs'.length = cs.length := by
  induction ids with
  | nil =>
    intro cs cs' h
    simp only [setClusterColor, Except.ok.injEq] at h
    rw [← h]
  | cons idx rest ih =>
    intro cs cs' h
    simp only [setClusterColor] at h
    by_cases hidx : idx < numPoints
    · rw [if_pos hidx] at h
      have := ih _ _ h
      simpa [List.length_set] using this
    · rw [if_neg hidx] at h
      cases h

theorem setClusterColor_ok_iff (numPoints label : Nat) (ids : List Nat) :
    ∀ cs : List Color,
      (∃ cs', setClusterColor numPoints label ids cs = .ok cs') ↔
        ∀ i ∈ ids, i < numPoints := by
  induction ids with
  | nil =>
    intro cs
    simp [setClusterColor]
  | cons idx rest ih =>
    intro cs
    simp only [setClusterColor]
    by_cases hidx : idx < numPoints
    · rw [if_pos hidx, ih (cs.set idx (getColorById label)),
        List.forall_mem_cons]
      simp [hidx]
    · rw [if_neg hidx]
      simp [List.forall_mem_cons, hidx]

theorem setClusterColor_getD (numPoints label : Nat) (ids : List Nat) :
    ∀ (cs cs' : List Color) (v : Nat) (d : Color),
      cs.length = numPoints → v < numPoints →
      setClusterColor numPoints label ids cs = .ok cs' →
      cs'.getD v d =
        if v ∈ ids then getColorById label else cs.getD v d := by
  induction ids with
  | nil =>
    intro cs cs' v d hlen hv h
    simp only [setClusterColor, Except.ok.injEq] at h
    subst h
    simp
  | cons idx rest ih =>
    intro cs cs' v d hlen hv h
    simp only [setClusterColor] at h
    by_cases hidx : idx < numPoints
    · rw [if_pos hidx] at h
      have hlen' : (cs.set idx (getColorById label)).length = numPoints := by
        simpa using hlen
      have hrec := ih _ _ v d hlen' hv h
      rw [hrec]
      by_cases hvrest : v ∈ rest
      · rw [if_pos hvrest, if_pos (List.mem_cons_of_mem idx hvrest)]
      · rw [if_neg hvrest]
        by_cases hvidx : v = idx
        · subst hvidx
          rw [if_pos (List.mem_cons_self v rest), List.getD_eq_getElem?_getD,
            List.getElem?_set_self (by omega : v < cs.length)]
          rfl
        · rw [if_neg (by simp [List.mem_cons, hvidx, hvrest]),
            List.getD_eq_getElem?_getD,
            List.getElem?_set_ne (fun he => hvidx he.symm),
            ← List.getD_eq_getElem?_getD]
    · rw [if_neg hidx] at h
      cases h

theorem colorClusters_getD (numPoints : Nat) (clusters : List TriangleCluster) :
    ∀ (cs cs' : List Color) (v : Nat) (d : Color),
      cs.length = numPoints → v < numPoints →
      colorClusters numPoints clusters cs = .ok cs' →
      cs'.getD v d =
        (lastClaiming clusters v).elim (cs.getD v d)
          (fun c => getColorById c.cluster_id) := by
  induction clusters with
  | nil =>
    intro cs cs' v d hlen hv h
    simp only [colorClusters, Except.ok.injEq] at h
    subst h
    simp [lastClaiming]
  | cons c rest ih =>
    intro cs cs' v d hlen hv h
    simp only [colorClusters] at h
    cases happ : applyCluster numPoints cs c with
    | error e =>
      rw [happ] at h
      cases h
    | ok cs1 =>
      rw [happ] at h
      have hlen1 : cs1.length = numPoints := by
        rw [setClusterColor_length numPoints c.cluster_id c.point_ids cs cs1
          happ]
        exact hlen
      have hrec := ih cs1 cs' v d hlen1 hv h
      have hone := setClusterColor_getD numPoints c.cluster_id c.point_ids cs
        cs1 v d hlen hv happ
      rw [hrec, hone]
      unfold lastClaiming
      rw [List.filter_cons]
      by_cases hvc : v ∈ c.point_ids
      · rw [if_pos hvc, if_pos (decide_eq_true hvc)]
        cases hrf : rest.filter (fun c => decide (v ∈ c.point_ids)) with
        | nil => simp
        | cons b l =>
          rw [List.getLast?_cons_cons]
          have hne : (b :: l : List TriangleCluster) ≠ [] := by simp
          rw [List.getLast?_eq_getLast_of_ne_nil hne]
          simp
      · rw [if_neg hvc,
          if_neg (by simp [hvc] : ¬((decide (v ∈ c.point_ids)) = true))]

theorem colorClusters_ok_iff (numPoints : Nat) (clusters : List TriangleCluster) :
    ∀ cs : List Color,
      (∃ cs', colorClusters numPoints clusters cs = .ok cs') ↔
        ∀ c ∈ clusters, ∀ i ∈ c.point_ids, i < numPoints := by
  induction clusters with
  | nil =>
    intro cs
    simp [colorClusters]
  | cons c rest ih =>
    intro cs
    simp only [colorClusters]
    cases happ : applyCluster numPoints cs c with
    | error e =>
      simp only [happ]
      constructor
      · rintro ⟨cs', h⟩
        cases h
      · intro hall
        exfalso
        have hok : ∃ cs1,
            setClusterColor numPoints c.cluster_id c.point_ids cs = .ok cs1 :=
          (setClusterColor_ok_iff numPoints c.cluster_id c.point_ids cs).2
            (hall c (List.mem_cons_self c rest))
        obtain ⟨cs1, hok⟩ := hok
        rw [show applyCluster numPoints cs c =
          setClusterColor numPoints c.cluster_id c.point_ids cs from rfl,
          hok] at happ
        cases happ
    | ok cs1 =>
      simp only [happ]
      rw [ih cs1, List.forall_mem_cons]
      have hc : ∀ i ∈ c.point_ids, i < numPoints :=
        (setClusterColor_ok_iff numPoints c.cluster_id c.point_ids cs).1
          ⟨cs1, happ⟩
      constructor
      · intro h1
        exact ⟨hc, h1⟩
      · rintro ⟨_, h1⟩
        exact h1

theorem replicate_getD_lt (n v : Nat) (x d : Color) (hv : v < n) :
    (List.replicate n x).getD v d = x := by
  rw [List.getD_eq_getElem?_getD, List.getElem?_replicate_of_lt hv]
  rfl

theorem fst_ge_of_mem_enumFrom {α : Type} (l : List α) :
    ∀ (s : Nat) (x : Nat × α), x ∈ l.enumFrom s → s ≤ x.1 := by
  induction l with
  | nil =>
    intro s x hx
    cases hx
  | cons a l ih =>
    intro s x hx
    rw [List.enumFrom_cons] at hx
    rcases List.mem_cons.mp hx with rfl | hx
    · exact Nat.le_refl s
    · exact Nat.le_trans (Nat.le_succ s) (ih (s + 1) x hx)

theorem wFind_frustum_foldl_enumFrom {Pose : Type} (w : List Pose) :
    ∀ (s : Nat) (m : WMap TrajKey (TrajWidget Pose)) (i : Nat) (p : Pose),
      s ≤ i → w[i - s]? = some p →
      wFind ((w.enumFrom s).foldl
        (fun m ip => wUpsert m (.frustum ip.1) (.frustum ip.2)) m)
        (TrajKey.frustum i) = some (TrajWidget.frustum p) := by
  induction w with
  | nil =>
    intro s m i p hsi hp
    rw [List.getElem?_nil] at hp
    cases hp
  | cons a w ih =>
    intro s m i p hsi hp
    rw [List.enumFrom_cons, List.foldl_cons]
    by_cases hi : i = s
    · subst hi
      rw [Nat.sub_self, List.getElem?_cons_zero] at hp
      injection hp with hp
      subst hp
      rw [wFind_foldl_wUpsert_ne]
      · exact wFind_wUpsert_self m (TrajKey.frustum i) (TrajWidget.frustum a)
      · intro x hx he
        have hge := fst_ge_of_mem_enumFrom w (i + 1) x hx
        simp only [TrajKey.frustum.injEq] at he
        omega
    · have hsi' : s + 1 ≤ i := by omega
      have hp' : w[i - (s + 1)]? = some p := by
        have hrw : i - s = (i - (s + 1)) + 1 := by omega
        rw [hrw, List.getElem?_cons_succ] at hp
        exact hp
      exact ih (s + 1) _ i p hsi' hp'

/-! ## Claim theorems -/

/-- Claim C1: for every mesh and every ordered cluster sequence given to
`colorMeshByClusters`, a vertex claimed by two or more clusters receives
exactly the colour of the last cluster in processing order that contains it
(no blending), and the output at that vertex equals the output obtained
from the last claiming cluster alone. -/
theorem colorMeshByClusters_last_cluster_wins (numPoints : Nat)
    (clusters : List TriangleCluster) (cs : List Color)
    (h : colorMeshByClusters numPoints clusters = .ok cs)
    (v : Nat) (hv : v < numPoints) (c : TriangleCluster)
    (hc : lastClaiming clusters v = some c) :
    cs.getD v defaultMeshColor = getColorById c.cluster_id ∧
    ∃ cs1, colorMeshByClusters numPoints [c] = .ok cs1 ∧
      cs1.getD v defaultMeshColor = cs.getD v defaultMeshColor := by
  have hrepl : (List.replicate numPoints defaultMeshColor).length = numPoints := by
    simp
  have hget := colorClusters_getD numPoints clusters _ cs v defaultMeshColor
    hrepl hv h
  rw [hc] at hget
  have h1 : cs.getD v defaultMeshColor = getColorById c.cluster_id := by
    simpa using hget
  refine ⟨h1, ?_⟩
  have hcfil := List.mem_of_getLast?_eq_some hc
  have hcmem : c ∈ clusters := (List.mem_filter.mp hcfil).1
  have hvin : v ∈ c.point_ids := by
    simpa using (List.mem_filter.mp hcfil).2
  have hallok : ∀ c' ∈ clusters, ∀ i ∈ c'.point_ids, i < numPoints :=
    (colorClusters_ok_iff numPoints clusters _).1 ⟨cs, h⟩
  have hcok : ∃ cs1, colorClusters numPoints [c]
      (List.replicate numPoints defaultMeshColor) = .ok cs1 :=
    (colorClusters_ok_iff numPoints [c] _).2 (by
      intro c' hc'
      rcases List.mem_singleton.mp hc' with rfl
      exact hallok c' hcmem)
  obtain ⟨cs1, hcs1⟩ := hcok
  refine ⟨cs1, hcs1, ?_⟩
  have hget1 := colorClusters_getD numPoints [c] _ cs1 v defaultMeshColor
    hrepl hv hcs1
  rw [hget1, h1]
  unfold lastClaiming
  simp [hvin]

/-- Witness for C1 at a concrete overlap: mesh of 3 vertices, cluster `1`
claims vertices `{0,1}`, cluster `2` claims `{1,2}`; vertex `1` ends with
cluster `2`'s colour, which equals the single-cluster output. -/
theorem colorMeshByClusters_last_cluster_wins_witness :
    (([⟨0, 255, 0⟩, ⟨0, 0, 255⟩, ⟨0, 0, 255⟩] : List Color).getD 1
        defaultMeshColor = getColorById 2) ∧
    ∃ cs1, colorMeshByClusters 3 [⟨2, [1, 2]⟩] = .ok cs1 ∧
      cs1.getD 1 defaultMeshColor =
        (([⟨0, 255, 0⟩, ⟨0, 0, 255⟩, ⟨0, 0, 255⟩] : List Color).getD 1
          defaultMeshColor) :=
  colorMeshByClusters_last_cluster_wins 3 [⟨1, [0, 1]⟩, ⟨2, [1, 2]⟩]
    [⟨0, 255, 0⟩, ⟨0, 0, 255⟩, ⟨0, 0, 255⟩] rfl 1 (by decide)
    ⟨2, [1, 2]⟩ (by decide)

/-- Claim C5: the cluster-label-to-colour mapping `getColorById` is a pure
function of the label given by the fixed palette indexed by
`label mod paletteSize`: the palette is non-empty, the colour depends only
on the label's residue mod `paletteSize`, and it is periodic in the
label. -/
theorem getColorById_deterministic_palette :
    0 < paletteSize ∧
    (∀ a b : Nat, a % paletteSize = b % paletteSize →
      getColorById a = getColorById b) ∧
    (∀ id : Nat, getColorById (id + paletteSize) = getColorById id) := by
  refine ⟨by decide, ?_, ?_⟩
  · intro a b hab
    unfold getColorById
    rw [hab]
  · intro id
    unfold getColorById
    rw [Nat.add_mod_right]

/-- Witness for C5: labels `7` and `1` share a residue mod the palette size
and therefore share a colour. -/
theorem getColorById_deterministic_palette_witness :
    getColorById 7 = getColorById 1 :=
  getColorById_deterministic_palette.2.1 7 1 (by decide)

/-- Claim C7: for every sequence of `upsert` calls reusing one identity, at
most one live entry ever exists for that identity; starting from a registry
without the identity, a non-empty call sequence leaves exactly one
entry. -/
theorem upsert_single_live_entry {K W : Type} [DecidableEq K] (m : WMap K W)
    (i : K) (ws : List W) (h : wCountKey m i ≤ 1) :
    wCountKey (ws.foldl (fun acc w => wUpsert acc i w) m) i ≤ 1 ∧
    (wCountKey m i = 0 → ws ≠ [] →
      wCountKey (ws.foldl (fun acc w => wUpsert acc i w) m) i = 1) := by
  constructor
  · by_cases hne : ws = []
    · subst hne
      simpa using h
    · rw [wCountKey_foldl_wUpsert m i ws hne]
      by_cases hz : wCountKey m i = 0
      · rw [if_pos hz]
      · rw [if_neg hz]
        exact h
  · intro hz hne
    rw [wCountKey_foldl_wUpsert m i ws hne, if_pos hz]

/-- Witness for C7: two upserts under identity `"cam"` into an empty
registry leave exactly one live entry. -/
theorem upsert_single_live_entry_witness :
    wCountKey (([0, 1] : List Nat).foldl
      (fun acc w => wUpsert acc "cam" w) ([] : WMap String Nat)) "cam" = 1 :=
  (upsert_single_live_entry [] "cam" [0, 1] (by decide)).2 (by decide)
    (by decide)

/-- Claim C9: `removeWidget` returns `true` exactly when an entry with the
identity was present (and removes it); removing a missing identity is a
no-op returning `false`; repeating the removal is idempotent. -/
theorem removeWidget_spec {K W : Type} [DecidableEq K] (m : WMap K W)
    (k : K) :
    ((removeWidget m k).1 = true ↔ wContains m k = true) ∧
    (wContains m k = false → (removeWidget m k).2 = m) ∧
    removeWidget (removeWidget m k).2 k = (false, (removeWidget m k).2) := by
  refine ⟨Iff.rfl, ?_, ?_⟩
  · intro h
    have hall : ∀ p ∈ m, p.1 ≠ k := by
      intro p hp he
      have hc : wContains m k = true :=
        (wContains_iff_exists m k).2 ⟨p.2, by rw [← he]; exact hp⟩
      rw [h] at hc
      cases hc
    show wErase m k = m
    unfold wErase
    rw [List.filter_eq_self]
    intro p hp
    exact decide_eq_true (hall p hp)
  · have h2 : wContains (wErase m k) k = false := by
      cases hb : wContains (wErase m k) k with
      | false => rfl
      | true =>
        have hw := (wContains_wErase_iff m k k).1 hb
        exact absurd rfl hw.2
    have h3 : wErase (wErase m k) k = wErase m k := by
      unfold wErase
      rw [List.filter_filter]
      apply List.filter_congr
      intro a _
      exact Bool.and_self _
    show (wContains (wErase m k) k, wErase (wErase m k) k) = _
    rw [h2, h3]
    rfl

/-- Witness for C9: removing identity `"b"` from a registry holding only
`"a"` is a no-op. -/
theorem removeWidget_spec_witness :
    (removeWidget ([("a", 0)] : WMap String Nat) "b").2 = [("a", 0)] :=
  (removeWidget_spec [("a", 0)] "b").2.1 (by decide)

/-- Claim C2: after `reconcile(planeId, ..., inliers)`, the set of
`(planeId, lmk)` constraint-line widgets owned for that plane equals
exactly the inlier set: non-inlier lines see a remove event, inliers
without a line see an add event, and lines present in both the old and new
sets see neither event. -/
theorem reconcile_subset_invariant {W : Type} (st : TrackerState W)
    (pid : PlaneId) (inliers : List LandmarkId) (mkLine : LandmarkId → W)
    (hwf : WFPlaneLines st) :
    (∀ l, wContains (reconcile st pid inliers mkLine).1.widgets
        (.line pid l) = true ↔ l ∈ inliers) ∧
    (∀ l, l ∈ st.planeIdMap pid → l ∉ inliers →
      RegMutation.remove (WidgetId.line pid l) ∈
        (reconcile st pid inliers mkLine).2) ∧
    (∀ l, l ∈ inliers → l ∉ st.planeIdMap pid →
      RegMutation.add (WidgetId.line pid l) (mkLine l) ∈
        (reconcile st pid inliers mkLine).2) ∧
    (∀ l, l ∈ st.planeIdMap pid → l ∈ inliers →
      RegMutation.remove (WidgetId.line pid l) ∉
        (reconcile st pid inliers mkLine).2 ∧
      ∀ w, RegMutation.add (WidgetId.line pid l) w ∉
        (reconcile st pid inliers mkLine).2) := by
  have hw2 : (reconcile st pid inliers mkLine).1.widgets =
      (inliers.filter (fun l => decide (l ∉ st.planeIdMap pid))).foldl
        (fun m l => wUpsert m (.line pid l) (mkLine l))
        (((st.planeIdMap pid).filter (fun l => decide (l ∉ inliers))).foldl
          (fun m l => wErase m (.line pid l)) st.widgets) := rfl
  have hev : (reconcile st pid inliers mkLine).2 =
      ((st.planeIdMap pid).filter (fun l => decide (l ∉ inliers))).map
        (fun l => RegMutation.remove (WidgetId.line pid l)) ++
      (inliers.filter (fun l => decide (l ∉ st.planeIdMap pid))).map
        (fun l => RegMutation.add (WidgetId.line pid l) (mkLine l)) := rfl
  refine ⟨?_, ?_, ?_, ?_⟩
  · intro l
    rw [hw2, wContains_foldl_wUpsert, wContains_foldl_wErase]
    constructor
    · rintro (⟨hcont, hnorem⟩ | ⟨x, hx, hgx⟩)
      · have hlown := (hwf pid l).1 hcont
        by_contra hlnin
        have hlrem : l ∈ (st.planeIdMap pid).filter
            (fun l => decide (l ∉ inliers)) :=
          List.mem_filter.2 ⟨hlown, decide_eq_true hlnin⟩
        exact hnorem l hlrem rfl
      · simp only [WidgetId.line.injEq] at hgx
        obtain ⟨-, rfl⟩ := hgx
        exact (List.mem_filter.mp hx).1
    · intro hlin
      by_cases hlown : l ∈ st.planeIdMap pid
      · left
        refine ⟨(hwf pid l).2 hlown, ?_⟩
        intro x hxmem he
        simp only [WidgetId.line.injEq] at he
        obtain ⟨-, rfl⟩ := he
        have hx2 : x ∉ inliers := by
          simpa using (List.mem_filter.mp hxmem).2
        exact hx2 hlin
      · right
        exact ⟨l, List.mem_filter.2 ⟨hlin, decide_eq_true hlown⟩, rfl⟩
  · intro l h1 h2
    rw [hev]
    apply List.mem_append_left
    exact List.mem_map_of_mem _ (List.mem_filter.2 ⟨h1, decide_eq_true h2⟩)
  · intro l h1 h2
    rw [hev]
    apply List.mem_append_right
    exact List.mem_map_of_mem _ (List.mem_filter.2 ⟨h1, decide_eq_true h2⟩)
  · intro l h1 h2
    constructor
    · intro hmem
      rw [hev] at hmem
      rcases List.mem_append.mp hmem with hm | hm
      · obtain ⟨x, hx, he⟩ := List.mem_map.mp hm
        simp only [RegMutation.remove.injEq, WidgetId.line.injEq] at he
        obtain ⟨-, rfl⟩ := he
        have hx2 : x ∉ inliers := by
          simpa using (List.mem_filter.mp hx).2
        exact hx2 h2
      · obtain ⟨x, hx, he⟩ := List.mem_map.mp hm
        cases he
    · intro w hmem
      rw [hev] at hmem
      rcases List.mem_append.mp hmem with hm | hm
      · obtain ⟨x, hx, he⟩ := List.mem_map.mp hm
        cases he
      · obtain ⟨x, hx, he⟩ := List.mem_map.mp hm
        simp only [RegMutation.add.injEq, WidgetId.line.injEq] at he
        obtain ⟨⟨-, rfl⟩, -⟩ := he
        have hx2 : x ∉ st.planeIdMap pid := by
          simpa using (List.mem_filter.mp hx).2
        exact hx2 h1

/-- Witness for C2: reconciling plane `7` with inliers `{3,4,5}` on a fresh
tracker emits an add event for line `(7,3)`. -/
theorem reconcile_subset_invariant_witness :
    RegMutation.add (WidgetId.line 7 3) () ∈
      (reconcile (⟨[], fun _ => [], fun _ => false⟩ : TrackerState Unit) 7
        [3, 4, 5] (fun _ => ())).2 :=
  (reconcile_subset_invariant ⟨[], fun _ => [], fun _ => false⟩ 7 [3, 4, 5]
      (fun _ => ()) (by intro pid l; simp [WFPlaneLines, wContains])).2.2.1 3
    (by decide) (by simp)

/-- Claim C3: reconciliation is idempotent: running `reconcile` a second
time with the identical inlier set performs zero additional registry
mutations. -/
theorem reconcile_idempotent {W : Type} (st : TrackerState W) (pid : PlaneId)
    (inliers : List LandmarkId) (mkLine : LandmarkId → W) :
    (reconcile (reconcile st pid inliers mkLine).1 pid inliers mkLine).2
      = [] := by
  have howned : (reconcile st pid inliers mkLine).1.planeIdMap pid
      = inliers := by
    show (if pid = pid then inliers else st.planeIdMap pid) = inliers
    rw [if_pos rfl]
  have hev : (reconcile (reconcile st pid inliers mkLine).1 pid inliers
      mkLine).2 =
      (((reconcile st pid inliers mkLine).1.planeIdMap pid).filter
        (fun l => decide (l ∉ inliers))).map
        (fun l => RegMutation.remove (WidgetId.line pid l)) ++
      (inliers.filter (fun l =>
        decide (l ∉ (reconcile st pid inliers mkLine).1.planeIdMap pid))).map
        (fun l => RegMutation.add (WidgetId.line pid l) (mkLine l)) := rfl
  rw [hev, howned]
  have h1 : inliers.filter (fun l => decide (l ∉ inliers)) = [] := by
    rw [List.filter_eq_nil_iff]
    intro a ha
    simp [ha]
  rw [h1]
  simp

/-- Claim C8: retiring a plane (transition Active to Absent) removes every
constraint-line widget owned by that plane, removes the plane's geometry
and label widgets, leaves no widget owned by that plane id in the registry
while preserving every widget not owned by it, and clears the plane's
bookkeeping entries. -/
theorem retire_removes_plane_widgets {W : Type} (st : TrackerState W)
    (pid : PlaneId) (hwf : WFPlaneLines st) :
    (∀ k, wContains (retire st pid).1.widgets k = true →
      ownerOf k ≠ some pid) ∧
    (∀ k, ownerOf k ≠ some pid →
      wContains (retire st pid).1.widgets k = wContains st.widgets k) ∧
    (∀ l, l ∈ st.planeIdMap pid →
      RegMutation.remove (WidgetId.line pid l) ∈ (retire st pid).2) ∧
    RegMutation.remove (W := W) (WidgetId.planeGeom pid) ∈ (retire st pid).2 ∧
    RegMutation.remove (W := W) (WidgetId.planeLabel pid) ∈ (retire st pid).2 ∧
    (retire st pid).1.planeIdMap pid = [] ∧
    (retire st pid).1.isPlaneInWindow pid = false := by
  have hw : (retire st pid).1.widgets =
      wErase (wErase ((st.planeIdMap pid).foldl
        (fun m l => wErase m (.line pid l)) st.widgets) (.planeGeom pid))
        (.planeLabel pid) := rfl
  have hev : (retire st pid).2 =
      (st.planeIdMap pid).map
        (fun l => RegMutation.remove (WidgetId.line pid l)) ++
      [.remove (.planeGeom pid), .remove (.planeLabel pid)] := rfl
  refine ⟨?_, ?_, ?_, ?_, ?_, ?_, ?_⟩
  · intro k hk heq
    rw [hw, wContains_wErase_iff] at hk
    obtain ⟨hk, hklabel⟩ := hk
    rw [wContains_wErase_iff] at hk
    obtain ⟨hk, hkgeom⟩ := hk
    rw [wContains_foldl_wErase] at hk
    obtain ⟨hkst, hklines⟩ := hk
    cases k with
    | line pid' l =>
      simp only [ownerOf, Option.some.injEq] at heq
      subst heq
      have hlin : l ∈ st.planeIdMap pid' := (hwf pid' l).1 hkst
      exact hklines l hlin rfl
    | planeGeom pid' =>
      simp only [ownerOf, Option.some.injEq] at heq
      subst heq
      exact hkgeom rfl
    | planeLabel pid' =>
      simp only [ownerOf, Option.some.injEq] at heq
      subst heq
      exact hklabel rfl
    | named s => simp [ownerOf] at heq
  · intro k heq
    rw [hw, Bool.eq_iff_iff, wContains_wErase_iff, wContains_wErase_iff,
      wContains_foldl_wErase]
    constructor
    · rintro ⟨⟨⟨h1, -⟩, -⟩, -⟩
      exact h1
    · intro h1
      refine ⟨⟨⟨h1, ?_⟩, ?_⟩, ?_⟩
      · intro l hl he
        rw [← he] at heq
        exact heq rfl
      · intro he
        rw [he] at heq
        exact heq rfl
      · intro he
        rw [he] at heq
        exact heq rfl
  · intro l hl
    rw [hev]
    exact List.mem_append_left _ (List.mem_map_of_mem _ hl)
  · rw [hev]
    apply List.mem_append_right
    simp
  · rw [hev]
    apply List.mem_append_right
    simp
  · show (if pid = pid then [] else st.planeIdMap pid) = []
    rw [if_pos rfl]
  · show (if pid = pid then false else st.isPlaneInWindow pid) = false
    rw [if_pos rfl]

/-- Witness for C8: retiring plane `7` on a fresh tracker emits the remove
event for the plane's geometry widget. -/
theorem retire_removes_plane_widgets_witness :
    RegMutation.remove (W := Unit) (WidgetId.planeGeom 7) ∈
      (retire (⟨[], fun _ => [], fun _ => false⟩ : TrackerState Unit) 7).2 :=
  (retire_removes_plane_widgets ⟨[], fun _ => [], fun _ => false⟩ 7
      (by intro pid l; simp [WFPlaneLines, wContains])).2.2.2.1

/-- Claim C4: rendering a trajectory of `k` appended poses with frustum
window size `n` produces at most `n` live frustum widgets, exactly one
trajectory polyline widget spanning all `k` poses, and each frustum widget
is keyed by its position in the window and holds the corresponding pose of
the most recent `n`. -/
theorem trajectory_frustum_window_bound {Pose : Type} (traj : List Pose)
    (n : Nat) :
    (renderTrajectory traj n).countP (fun p => isFrustumKey p.1) ≤ n ∧
    (renderTrajectory traj n).countP
      (fun p => decide (p.1 = TrajKey.trajectory)) = 1 ∧
    wFind (renderTrajectory traj n) TrajKey.trajectory =
      some (TrajWidget.polyline traj) ∧
    (∀ i p, (lastN traj n)[i]? = some p →
      wFind (renderTrajectory traj n) (TrajKey.frustum i) =
        some (TrajWidget.frustum p)) := by
  have hrt : renderTrajectory traj n =
      (lastN traj n).enum.foldl
        (fun m ip => wUpsert m (.frustum ip.1) (.frustum ip.2))
        [(TrajKey.trajectory, TrajWidget.polyline traj)] := rfl
  have hwlen : (lastN traj n).length ≤ n := by
    rw [lastN, List.length_drop]
    omega
  refine ⟨?_, ?_, ?_, ?_⟩
  · rw [hrt]
    calc ((lastN traj n).enum.foldl
          (fun m ip => wUpsert m (.frustum ip.1) (.frustum ip.2))
          [(TrajKey.trajectory, TrajWidget.polyline traj)]).countP
            (fun p => isFrustumKey p.1)
        ≤ ([(TrajKey.trajectory, TrajWidget.polyline traj)] :
            WMap TrajKey (TrajWidget Pose)).countP (fun p => isFrustumKey p.1)
          + (lastN traj n).enum.length :=
          wCountP_foldl_wUpsert_le _ _ _ _ _
      _ ≤ n := by
          have h0 : ([(TrajKey.trajectory, TrajWidget.polyline traj)] :
              WMap TrajKey (TrajWidget Pose)).countP
                (fun p => isFrustumKey p.1) = 0 := rfl
          rw [h0, List.enum_eq_enumFrom, List.enumFrom_length]
          omega
  · rw [hrt]
    have hpres := wCountP_foldl_wUpsert_of_not
      (fun ip : Nat × Pose => TrajKey.frustum ip.1)
      (fun ip : Nat × Pose => TrajWidget.frustum ip.2)
      (fun k => decide (k = TrajKey.trajectory)) (lastN traj n).enum
      [(TrajKey.trajectory, TrajWidget.polyline traj)]
      (by intro x hx; simp)
    exact hpres.trans (by rfl)
  · rw [hrt]
    have hfind := wFind_foldl_wUpsert_ne
      (fun ip : Nat × Pose => TrajKey.frustum ip.1)
      (fun ip : Nat × Pose => TrajWidget.frustum ip.2) (lastN traj n).enum
      [(TrajKey.trajectory, TrajWidget.polyline traj)] TrajKey.trajectory
      (by intro x hx; simp)
    exact hfind.trans (by rfl)
  · intro i p hp
    rw [hrt, List.enum_eq_enumFrom]
    exact wFind_frustum_foldl_enumFrom (lastN traj n) 0 _ i p (Nat.zero_le i)
      (by simpa using hp)

/-- Witness for C4: with poses `[10, 20, 30]` and window size `2`, the
frustum at window position `0` shows pose `20` (the older pose `10` has no
frustum). -/
theorem trajectory_frustum_window_bound_witness :
    wFind (renderTrajectory ([10, 20, 30] : List Nat) 2) (TrajKey.frustum 0)
      = some (TrajWidget.frustum 20) :=
  (trajectory_frustum_window_bound [10, 20, 30] 2).2.2.2 0 20 rfl

/-- The base widget map built by the frame assembler before the mesh and
point-cloud steps never contains the mesh identity. -/
theorem assembler_base_no_mesh {Pose : Type} (traj1 : List Pose) (nf : Nat) :
    wContains ((lastN traj1 nf).enum.foldl
      (fun m ip => wUpsert m (.frustum ip.1) (.frustum ip.2))
      (wUpsert ([] : WMap SceneKey (SceneWidget Pose)) SceneKey.trajectory
        (SceneWidget.polyline traj1))) SceneKey.mesh = false := by
  cases hb : wContains ((lastN traj1 nf).enum.foldl
      (fun m ip => wUpsert m (.frustum ip.1) (.frustum ip.2))
      (wUpsert ([] : WMap SceneKey (SceneWidget Pose)) SceneKey.trajectory
        (SceneWidget.polyline traj1))) SceneKey.mesh with
  | false => rfl
  | true =>
    exfalso
    rcases (wContains_foldl_wUpsert _ _ _ _ _).1 hb with hbase | ⟨x, hx, hgx⟩
    · rcases (wContains_wUpsert_iff _ _ _ _).1 hbase with h | h
      · simp [wContains] at h
      · cases h
    · cases hgx

/-- The base widget map built by the frame assembler holds the polyline over
the full appended history under the trajectory identity. -/
theorem assembler_base_traj {Pose : Type} (traj1 : List Pose) (nf : Nat) :
    wFind ((lastN traj1 nf).enum.foldl
      (fun m ip => wUpsert m (.frustum ip.1) (.frustum ip.2))
      (wUpsert ([] : WMap SceneKey (SceneWidget Pose)) SceneKey.trajectory
        (SceneWidget.polyline traj1))) SceneKey.trajectory =
      some (SceneWidget.polyline traj1) := by
  have hfind := wFind_foldl_wUpsert_ne
    (fun ip : Nat × Pose => SceneKey.frustum ip.1)
    (fun ip : Nat × Pose => SceneWidget.frustum ip.2) (lastN traj1 nf).enum
    (wUpsert ([] : WMap SceneKey (SceneWidget Pose)) SceneKey.trajectory
      (SceneWidget.polyline traj1)) SceneKey.trajectory
    (by intro x hx; simp)
  exact hfind.trans (wFind_wUpsert_self _ _ _)

/-- Claim C6: an empty cluster list colours the entire mesh with the default
colour; a cluster referencing an out-of-range vertex index makes the
colorizer report a malformed-input error to the caller rather than silently
skipping; and on such an error the frame assembler skips the mesh step for
that frame (reporting the error, adding no mesh widget) while all other
steps of the frame proceed. -/
theorem colorizer_error_reporting (numPoints : Nat)
    (clusters : List TriangleCluster) :
    colorMeshByClusters numPoints [] =
      .ok (List.replicate numPoints defaultMeshColor) ∧
    ((∃ c ∈ clusters, ∃ i ∈ c.point_ids, numPoints ≤ i) →
      ∃ e, colorMeshByClusters numPoints clusters = .error e) ∧
    (∀ (Pose : Type) (traj : List Pose) (pose : Pose) (pc : Option Nat)
      (e : VizError) (nf : Nat),
      colorMeshByClusters numPoints clusters = .error e →
      (assembleFrame traj ⟨pose, some (numPoints, clusters), pc⟩ nf).2.errors
          = [e] ∧
      wContains (assembleFrame traj ⟨pose, some (numPoints, clusters), pc⟩
          nf).2.widgets SceneKey.mesh = false ∧
      wFind (assembleFrame traj ⟨pose, some (numPoints, clusters), pc⟩
          nf).2.widgets SceneKey.trajectory =
        some (SceneWidget.polyline (traj ++ [pose]))) := by
  refine ⟨rfl, ?_, ?_⟩
  · rintro ⟨c, hc, i, hi, hni⟩
    cases hres : colorMeshByClusters numPoints clusters with
    | ok cs =>
      exfalso
      have hall := (colorClusters_ok_iff numPoints clusters _).1 ⟨cs, hres⟩
      have := hall c hc i hi
      omega
    | error e => exact ⟨e, rfl⟩
  · intro Pose traj pose pc e nf herr
    refine ⟨?_, ?_, ?_⟩
    · simp only [assembleFrame, addPoseToTrajectory, herr]
    · simp only [assembleFrame, addPoseToTrajectory, herr]
      cases pc with
      | none => exact assembler_base_no_mesh (traj ++ [pose]) nf
      | some np =>
        cases hb : wContains (wUpsert ((lastN (traj ++ [pose]) nf).enum.foldl
            (fun m ip => wUpsert m (.frustum ip.1) (.frustum ip.2))
            (wUpsert ([] : WMap SceneKey (SceneWidget Pose))
              SceneKey.trajectory (SceneWidget.polyline (traj ++ [pose]))))
            SceneKey.pointCloud (SceneWidget.pointCloud np))
            SceneKey.mesh with
        | false => rfl
        | true =>
          exfalso
          rcases (wContains_wUpsert_iff _ _ _ _).1 hb with h | h
          · rw [assembler_base_no_mesh (traj ++ [pose]) nf] at h
            cases h
          · cases h
    · simp only [assembleFrame, addPoseToTrajectory, herr]
      cases pc with
      | none => exact assembler_base_traj (traj ++ [pose]) nf
      | some np =>
        exact (wFind_wUpsert_ne _ _ _ _ (by simp)).trans
          (assembler_base_traj (traj ++ [pose]) nf)

/-- Witness for C6: a 2-vertex mesh with a cluster referencing vertex `5`
makes the assembled frame report the malformed-input error while the
trajectory widget of that frame is still produced. -/
theorem colorizer_error_reporting_witness :
    (assembleFrame ([] : List Nat) ⟨0, some (2, [⟨1, [5]⟩]), none⟩
        10).2.errors = [VizError.malformedInput 1 5] ∧
    wFind (assembleFrame ([] : List Nat) ⟨0, some (2, [⟨1, [5]⟩]), none⟩
        10).2.widgets SceneKey.trajectory =
      some (SceneWidget.polyline [0]) :=
  ⟨((colorizer_error_reporting 2 [⟨1, [5]⟩]).2.2 Nat [] 0 none
      (VizError.malformedInput 1 5) 10 rfl).1,
    by
      have h := ((colorizer_error_reporting 2 [⟨1, [5]⟩]).2.2 Nat [] 0 none
        (VizError.malformedInput 1 5) 10 rfl).2.2
      simpa using h⟩

/-- Claim C10: `visualizeMesh3D` returns `false` and leaves the widgets map
unchanged whenever there is nothing to draw (empty points or polygons) or
a non-empty colour array disagrees with the mesh point count; it returns
`true` exactly when it has added the mesh widget under its identity. -/
theorem visualizeMesh3D_spec {P : Type} (map_points_3d : List P)
    (colors : List Color) (polygons : List (List Nat))
    (widgets : WMap String (MeshWidget P)) (tcoords : List (Nat × Nat))
    (id : String) :
    ((visualizeMesh3D map_points_3d colors polygons widgets tcoords id).1
        = false →
      (visualizeMesh3D map_points_3d colors polygons widgets tcoords id).2
        = widgets) ∧
    (map_points_3d = [] ∨ polygons = [] →
      (visualizeMesh3D map_points_3d colors polygons widgets tcoords id).1
        = false) ∧
    (colors ≠ [] → colors.length ≠ map_points_3d.length →
      (visualizeMesh3D map_points_3d colors polygons widgets tcoords id).1
        = false) ∧
    ((visualizeMesh3D map_points_3d colors polygons widgets tcoords id).1
        = true →
      wContains (visualizeMesh3D map_points_3d colors polygons widgets
        tcoords id).2 ("Mesh" ++ id) = true ∧
      wFind (visualizeMesh3D map_points_3d colors polygons widgets
        tcoords id).2 ("Mesh" ++ id) =
        some (MeshWidget.mesh map_points_3d colors polygons)) := by
  unfold visualizeMesh3D
  split_ifs with h1 h2 h3
  · exact ⟨fun _ => rfl, fun _ => rfl, fun _ _ => rfl,
      fun h => absurd h (by simp)⟩
  · exact ⟨fun _ => rfl, fun _ => rfl, fun _ _ => rfl,
      fun h => absurd h (by simp)⟩
  · exact ⟨fun _ => rfl, fun _ => rfl, fun _ _ => rfl,
      fun h => absurd h (by simp)⟩
  · refine ⟨fun h => absurd h (by simp), ?_, ?_, ?_⟩
    · intro hor
      exfalso
      apply h1
      rcases hor with h | h <;> simp [h]
    · intro hc hlen
      exfalso
      apply h2
      simp [List.isEmpty_iff, hc, hlen]
    · intro _
      exact ⟨(wContains_wUpsert_iff widgets ("Mesh" ++ id) ("Mesh" ++ id)
          (MeshWidget.mesh map_points_3d colors polygons)).2 (Or.inr rfl),
        wFind_wUpsert_self widgets ("Mesh" ++ id)
          (MeshWidget.mesh map_points_3d colors polygons)⟩

/-- Witness for C10: with no points there is nothing to draw, so the call
reports `false` and leaves the (empty) widgets map unchanged. -/
theorem visualizeMesh3D_spec_witness :
    (visualizeMesh3D ([] : List Nat) [] [] [] [] "").1 = false :=
  (visualizeMesh3D_spec ([] : List Nat) [] [] [] [] "").2.1 (Or.inl rfl)

end VIO
